import Mathlib

/-!
Verification of the dotscan tracking reporter (src/main.rs).

Strings are modelled as lists of characters (`Str`).  The Rust
`str::split` on a single-character separator is modelled by `splitSep`,
which matches Rust semantics exactly: splitting the empty string yields
one empty piece, a trailing separator yields a trailing empty piece.

The `HashMap<String, u32>` built by `count_tracked_files` is modelled
extensionally as a function `Str → Option Nat` (`Option` because absent
keys read back as `None` through `HashMap::get`).  Rust panics
(`unreachable!`) are modelled by `Option` for the aggregator and by a
completed-flag for the reporter, which also records the lines printed
before a panic would abort the process.
-/

/-- A Rust string, modelled as its list of characters. -/
abbrev Str := List Char

/-- Rust `str::split` with a one-character separator: every occurrence of
`sep` separates two pieces; the empty string splits into one empty piece. -/
def splitSep (sep : Char) : Str → List Str
  | [] => [[]]
  | c :: cs =>
    if c = sep then [] :: splitSep sep cs
    else (splitSep sep cs).modifyHead (fun s => c :: s)

/-- The tracking count map: `HashMap<String, u32>` viewed through
`HashMap::get`, i.e. as a partial function from keys to counts. -/
def CountMap : Type := Str → Option Nat

/-- The freshly created `HashMap::new()`: no keys. -/
def emptyMap : CountMap := fun _ => none

/-- The `increment_tracked` closure of `count_tracked_files`:
`h.entry(k).and_modify(|c| *c += 1).or_insert(1)`. -/
def incrementTracked (h : CountMap) (dir_or_file : Str) : CountMap :=
  fun key =>
    if key = dir_or_file then some ((h dir_or_file).getD 0 + 1) else h key

/-- One iteration of the loop of `count_tracked_files`: split the path on
`/`, look at the first two pieces of the split iterator; two pieces mean a
directory prefix (key `dir/`), one piece means a bare file name (key as
is); the `(None, _)` arm is `unreachable!` and is modelled as `none`. -/
def countStep (h : CountMap) (file_name : Str) : Option CountMap :=
  match splitSep '/' file_name with
  | dir_name :: _ :: _ => some (incrementTracked h (dir_name ++ ['/']))
  | [bare] => some (incrementTracked h bare)
  | [] => none

/-- Model of `count_tracked_files`: fold the tracked-path list through `countStep`
starting from the empty map; `none` models a `unreachable!` panic. -/
def count_tracked_files (file_names : List Str) : Option CountMap :=
  List.foldlM countStep emptyMap file_names

/-- First piece of the `/`-split of a path (the first `next()` of the
split iterator). -/
def firstComp (p : Str) : Str :=
  match splitSep '/' p with
  | d :: _ => d
  | [] => []

/-- The key under which `count_tracked_files` counts a path. -/
def keyOf (p : Str) : Str :=
  match splitSep '/' p with
  | d :: _ :: _ => d ++ ['/']
  | [bare] => bare
  | [] => []

/-- Encoding of counts: `none` for a zero count, `some n` for a positive one: how a count of
matching paths reads back through `HashMap::get`. -/
def optCount (n : Nat) : Option Nat :=
  if n = 0 then none else some n

/-- The map whose key `k` reads back as `optCount (c k)`. -/
def toMap (c : Str → Nat) : CountMap := fun k => optCount (c k)

/-- Model of `report_dir_with_tracked_files`: the line `println!("{} - {}", dir_name, count)`. -/
def report_dir_with_tracked_files (dir_name : Str) (count : Nat) : Str :=
  dir_name ++ " - ".data ++ Nat.toDigits 10 count

/-- Model of `report_dir_without_tracked_files`: the line `println!("{} - None", dir_name)`. -/
def report_dir_without_tracked_files (dir_name : Str) : Str :=
  dir_name ++ " - None".data

/-- Model of `report_tracked_file`: the line `println!("{} - CHECKED", file_name)`. -/
def report_tracked_file (file_name : Str) : Str :=
  file_name ++ " - CHECKED".data

/-- Model of `report_untracked_file`: the line `println!("{} - LEFT", file_name)`. -/
def report_untracked_file (file_name : Str) : Str :=
  file_name ++ " - LEFT".data

/-- Rust `file_name.ends_with("/")`. -/
def endsWithSlash (s : Str) : Bool := s.getLast? = some '/'

/-- Model of `report_tracking_status`: one line per entry, in order.  The result is
the list of lines printed together with a completed-flag: `false` means the
`unreachable!("file should have track count of 1")` panic fired, aborting
the loop after the lines already printed. -/
def report_tracking_status (file_names : List Str) (tracked : CountMap) :
    List Str × Bool :=
  match file_names with
  | [] => ([], true)
  | file_name :: rest =>
    if endsWithSlash file_name then
      match tracked file_name with
      | some count =>
        let r := report_tracking_status rest tracked
        (report_dir_with_tracked_files file_name count :: r.1, r.2)
      | none =>
        let r := report_tracking_status rest tracked
        (report_dir_without_tracked_files file_name :: r.1, r.2)
    else
      match tracked file_name with
      | some count =>
        if count = 1 then
          let r := report_tracking_status rest tracked
          (report_tracked_file file_name :: r.1, r.2)
        else ([], false)
      | none =>
        let r := report_tracking_status rest tracked
        (report_untracked_file file_name :: r.1, r.2)

/-- Outcome of one `Command::output()` call, abstracting the external
process: `ioError` is `output()` returning `Err` (the tool could not be
invoked at all); `ok code stdout` is a finished process with its exit code
and captured stdout, where `stdout = none` models bytes that are not valid
UTF-8 (so `String::from_utf8` fails) and `stdout = some s` the decoded
text.  Note `Command::output` returns `Ok` regardless of the exit code. -/
inductive SpawnResult where
  | ioError : SpawnResult
  | ok (exitCode : Nat) (stdoutUtf8 : Option Str) : SpawnResult
deriving DecidableEq

/-- The newline split-and-filter both listers apply to captured stdout:
`stdout.split("\n").filter_map(|s| if s.len() > 0 {Some(s)} else {None})`. -/
def splitNonEmptyLines (s : Str) : List Str :=
  (splitSep '\n' s).filter (fun x => !x.isEmpty)

/-- Model of `get_file_names` with the `ls -p` invocation abstracted to its
`SpawnResult`: an `Err` from `output()` is given the context message and
propagated; invalid UTF-8 makes `String::from_utf8` fail and is
propagated; otherwise the captured stdout is split into non-empty lines.
The exit code of the finished process is never inspected. -/
def get_file_names (ls : SpawnResult) : Except Str (List Str) :=
  match ls with
  | .ioError => .error "Failed to get ls output".data
  | .ok _ none => .error "invalid utf-8 sequence".data
  | .ok _ (some stdout) => .ok (splitNonEmptyLines stdout)

/-- Model of `get_tracked_file_names` with the `git ls-tree --name-only -r HEAD`
invocation abstracted to its `SpawnResult`; same structure as
`get_file_names`, and again the exit code is never inspected. -/
def get_tracked_file_names (git : SpawnResult) : Except Str (List Str) :=
  match git with
  | .ioError => .error "Failed to use git ls-tree to list tracked files".data
  | .ok _ none => .error "invalid utf-8 sequence".data
  | .ok _ (some stdout) => .ok (splitNonEmptyLines stdout)

/-! ### Facts about `splitSep` -/

theorem splitSep_ne_nil (sep : Char) (s : Str) : splitSep sep s ≠ [] := by
  induction s with
  | nil => simp [splitSep]
  | cons c cs ih =>
    by_cases hc : c = sep
    · simp [splitSep, hc]
    · cases h : splitSep sep cs with
      | nil => exact absurd h ih
      | cons s1 rest => simp [splitSep, hc, h]

theorem splitSep_eq_singleton_iff (sep : Char) (s : Str) :
    splitSep sep s = [s] ↔ sep ∉ s := by
  induction s with
  | nil => simp [splitSep]
  | cons c cs ih =>
    by_cases hc : c = sep
    · subst hc
      simp only [splitSep, if_pos rfl]
      constructor
      · intro h
        exact absurd ((List.cons.inj h).1).symm (List.cons_ne_nil c cs)
      · intro h
        exact absurd (List.mem_cons_self c cs) h
    · cases h : splitSep sep cs with
      | nil => exact absurd h (splitSep_ne_nil sep cs)
      | cons s1 rest =>
        rw [h] at ih
        simp only [splitSep, if_neg hc, h, List.modifyHead_cons]
        constructor
        · intro he
          have h1 := (List.cons.inj he).1
          have h2 := (List.cons.inj he).2
          have hs1 : s1 = cs := (List.cons.inj h1).2
          have hmem : sep ∉ cs := ih.mp (by rw [hs1, h2])
          rw [List.mem_cons, not_or]
          exact ⟨fun hv => hc hv.symm, hmem⟩
        · intro hn
          rw [List.mem_cons, not_or] at hn
          have h3 := ih.mpr hn.2
          have hs1 : s1 = cs := (List.cons.inj h3).1
          have h2 : rest = [] := (List.cons.inj h3).2
          rw [hs1, h2]

theorem splitSep_head_not_mem (sep : Char) (s : Str) :
    ∀ d rest, splitSep sep s = d :: rest → sep ∉ d := by
  induction s with
  | nil =>
    intro d rest h
    simp only [splitSep, List.cons.injEq] at h
    rw [← h.1]
    exact List.not_mem_nil sep
  | cons c cs ih =>
    intro d rest h
    by_cases hc : c = sep
    · simp only [splitSep, if_pos hc, List.cons.injEq] at h
      rw [← h.1]
      exact List.not_mem_nil sep
    · cases h2 : splitSep sep cs with
      | nil => exact absurd h2 (splitSep_ne_nil sep cs)
      | cons s1 rest1 =>
        simp only [splitSep, if_neg hc, h2, List.modifyHead_cons,
          List.cons.injEq] at h
        rw [← h.1, List.mem_cons, not_or]
        exact ⟨fun hv => hc hv.symm, ih s1 rest1 h2⟩

theorem two_le_splitSep_length (sep : Char) (s : Str) (hs : sep ∈ s) :
    2 ≤ (splitSep sep s).length := by
  induction s with
  | nil => exact absurd hs (List.not_mem_nil sep)
  | cons c cs ih =>
    by_cases hc : c = sep
    · simp only [splitSep, if_pos hc, List.length_cons]
      have h1 : 1 ≤ (splitSep sep cs).length :=
        List.length_pos.mpr (splitSep_ne_nil sep cs)
      omega
    · have hcs : sep ∈ cs := by
        rcases List.mem_cons.mp hs with h | h
        · exact absurd h.symm hc
        · exact h
      cases h2 : splitSep sep cs with
      | nil => exact absurd h2 (splitSep_ne_nil sep cs)
      | cons s1 rest1 =>
        have h3 := ih hcs
        rw [h2] at h3
        simp only [splitSep, if_neg hc, h2, List.modifyHead_cons,
          List.length_cons] at h3 ⊢
        omega

/-! ### Facts about `keyOf` and `firstComp` -/

theorem keyOf_of_not_mem (p : Str) (hp : '/' ∉ p) : keyOf p = p := by
  unfold keyOf
  rw [(splitSep_eq_singleton_iff _ p).mpr hp]

theorem keyOf_of_mem (p : Str) (hp : '/' ∈ p) :
    keyOf p = firstComp p ++ ['/'] := by
  have h2 := two_le_splitSep_length '/' p hp
  unfold keyOf firstComp
  cases h : splitSep '/' p with
  | nil => exact absurd h (splitSep_ne_nil '/' p)
  | cons d rest =>
    cases rest with
    | nil => rw [h] at h2; simp at h2
    | cons e r => rfl

theorem not_mem_firstComp (p : Str) : '/' ∉ firstComp p := by
  unfold firstComp
  cases h : splitSep '/' p with
  | nil => exact List.not_mem_nil _
  | cons d rest => exact splitSep_head_not_mem '/' p d rest h

/-! ### Characterization of `count_tracked_files` -/

theorem countStep_eq (h : CountMap) (p : Str) :
    countStep h p = some (incrementTracked h (keyOf p)) := by
  unfold countStep keyOf
  cases hs : splitSep '/' p with
  | nil => exact absurd hs (splitSep_ne_nil '/' p)
  | cons d rest =>
    cases rest with
    | nil => rfl
    | cons e r => rfl

theorem incrementTracked_toMap (c : Str → Nat) (k : Str) :
    incrementTracked (toMap c) k =
      toMap (fun j => if j = k then c j + 1 else c j) := by
  funext j
  by_cases hj : j = k
  · subst hj
    simp only [incrementTracked, toMap, optCount, if_pos rfl]
    by_cases h0 : c j = 0 <;> simp [h0]
  · simp [incrementTracked, toMap, optCount, hj]

theorem foldlM_countStep (l : List Str) :
    ∀ c : Str → Nat,
      List.foldlM countStep (toMap c) l =
        some (toMap (fun k => c k + (l.map keyOf).count k)) := by
  induction l with
  | nil => intro c; simp [List.foldlM]
  | cons p rest ih =>
    intro c
    rw [List.foldlM_cons, countStep_eq, incrementTracked_toMap]
    simp only [Option.bind_eq_bind, Option.some_bind, ih]
    congr 1
    apply congrArg
    funext k
    simp only [List.map_cons, List.count_cons]
    by_cases hk : keyOf p = k
    · simp [hk, beq_iff_eq]
      omega
    · have hk2 : ¬(k = keyOf p) := fun h => hk h.symm
      simp [hk, hk2, beq_iff_eq]

theorem count_tracked_files_eq (l : List Str) :
    count_tracked_files l =
      some (toMap (fun k => (l.map keyOf).count k)) := by
  have h0 : emptyMap = toMap (fun _ => 0) := by
    funext k
    simp [emptyMap, toMap, optCount]
  unfold count_tracked_files
  rw [h0, foldlM_countStep]
  congr 1
  apply congrArg
  funext k
  omega

theorem keyOf_eq_dir_iff (p d : Str) :
    keyOf p = d ++ ['/'] ↔ firstComp p = d ∧ '/' ∈ p := by
  by_cases hp : '/' ∈ p
  · rw [keyOf_of_mem p hp]
    constructor
    · intro h
      exact ⟨List.append_cancel_right h, hp⟩
    · intro h
      rw [h.1]
  · rw [keyOf_of_not_mem p hp]
    constructor
    · intro h
      subst h
      exact absurd (List.mem_append_right d (List.mem_singleton.mpr rfl)) hp
    · intro h
      exact absurd h.2 hp

theorem keyOf_eq_file_iff (p f : Str) (hf : f.getLast? ≠ some '/') :
    keyOf p = f ↔ p = f ∧ '/' ∉ p := by
  by_cases hp : '/' ∈ p
  · rw [keyOf_of_mem p hp]
    constructor
    · intro h
      have hlast : f.getLast? = some '/' := by
        rw [← h]
        exact List.getLast?_concat _
      exact absurd hlast hf
    · intro h
      exact absurd hp h.2
  · rw [keyOf_of_not_mem p hp]
    exact ⟨fun h => ⟨h, hp⟩, fun h => h.1⟩

theorem count_map_keyOf (l : List Str) (k : Str) :
    (l.map keyOf).count k = l.countP (fun p => decide (keyOf p = k)) := by
  rw [List.count_eq_countP, List.countP_map]
  apply List.countP_congr
  intro p _
  simp [Function.comp, beq_iff_eq]

/-! ### Facts about the reporter -/

theorem report_aborts (t : CountMap) (es : List Str) (e : Str)
    (he : e ∈ es) (hslash : endsWithSlash e = false)
    (hn : ∃ n, t e = some n ∧ n ≠ 1) :
    (report_tracking_status es t).2 = false := by
  induction es with
  | nil => exact absurd he (List.not_mem_nil e)
  | cons a rest ih =>
    rcases List.mem_cons.mp he with rfl | hmem
    · obtain ⟨n, hta, hn1⟩ := hn
      simp only [report_tracking_status, hslash, Bool.false_eq_true,
        if_false, hta, if_neg hn1]
    · by_cases hsl : endsWithSlash a
      · cases hta : t a with
        | none => simp only [report_tracking_status, hsl, if_true, hta, ih hmem]
        | some c => simp only [report_tracking_status, hsl, if_true, hta, ih hmem]
      · cases hta : t a with
        | none =>
          simp only [report_tracking_status, hsl, Bool.false_eq_true, if_false,
            hta, ih hmem]
        | some c =>
          by_cases hc : c = 1
          · simp only [report_tracking_status, hsl, Bool.false_eq_true, if_false,
              hta, if_pos hc, ih hmem]
          · simp only [report_tracking_status, hsl, Bool.false_eq_true, if_false,
              hta, if_neg hc]

/-! ### Claims -/

/-- Claim C1: for every sequence of non-empty tracked paths, the map built by
`count_tracked_files` sends each directory key `d ++ "/"` to the number of
input paths whose first `/`-separated component is `d` and which contain a
`/`, and each key `f` not ending in `/` to the number of input paths equal to
`f` (such paths contain no `/`); every other key is absent (`optCount 0 = none`
encodes absence). -/
theorem count_tracked_files_spec (l : List Str) (m : CountMap)
    (_hne : ∀ p ∈ l, p ≠ ([] : Str))
    (hm : count_tracked_files l = some m) :
    (∀ d : Str,
        m (d ++ ['/']) =
          optCount (l.countP
            (fun p => decide (firstComp p = d) && decide ('/' ∈ p)))) ∧
      (∀ f : Str, f.getLast? ≠ some '/' →
        m f = optCount (l.countP
          (fun p => decide (p = f) && !decide ('/' ∈ p)))) := by
  have hm2 : m = toMap (fun k => (l.map keyOf).count k) := by
    have h := count_tracked_files_eq l
    rw [hm] at h
    exact Option.some.inj h
  subst hm2
  constructor
  · intro d
    show optCount _ = optCount _
    congr 1
    show (l.map keyOf).count (d ++ ['/']) = _
    rw [count_map_keyOf]
    apply List.countP_congr
    intro p _
    simp only [decide_eq_true_eq, Bool.and_eq_true]
    exact keyOf_eq_dir_iff p d
  · intro f hf
    show optCount _ = optCount _
    congr 1
    show (l.map keyOf).count f = _
    rw [count_map_keyOf]
    apply List.countP_congr
    intro p _
    simp only [decide_eq_true_eq, Bool.and_eq_true, Bool.not_eq_true',
      decide_eq_false_iff_not]
    exact keyOf_eq_file_iff p f hf

/-- Witness for C1 at tracked paths `["a.txt", "b/x.txt", "b/y.txt"]`: the
directory key `b/` reads back as 2 and the file key `a.txt` as 1. -/
theorem count_tracked_files_spec_witness :
    (∀ p ∈ (["a.txt".data, "b/x.txt".data, "b/y.txt".data] : List Str),
        p ≠ ([] : Str)) ∧
      count_tracked_files ["a.txt".data, "b/x.txt".data, "b/y.txt".data] =
        some (incrementTracked (incrementTracked (incrementTracked emptyMap
          "a.txt".data) "b/".data) "b/".data) ∧
      incrementTracked (incrementTracked (incrementTracked emptyMap
          "a.txt".data) "b/".data) "b/".data ("b".data ++ ['/']) = some 2 ∧
      incrementTracked (incrementTracked (incrementTracked emptyMap
          "a.txt".data) "b/".data) "b/".data "a.txt".data = some 1 := by
  have h1 : ∀ p ∈ (["a.txt".data, "b/x.txt".data, "b/y.txt".data] : List Str),
      p ≠ ([] : Str) := by decide
  have h2 : count_tracked_files ["a.txt".data, "b/x.txt".data, "b/y.txt".data] =
      some (incrementTracked (incrementTracked (incrementTracked emptyMap
        "a.txt".data) "b/".data) "b/".data) := rfl
  have h3 := count_tracked_files_spec _ _ h1 h2
  refine ⟨h1, h2, ?_, ?_⟩
  · rw [h3.1 "b".data]
    decide
  · rw [h3.2 "a.txt".data (by decide)]
    decide

/-- Claim C3 as stated is false: a tracked-path sequence repeating the bare
file name `dup.txt` makes the plain key `dup.txt` (which does not end in the
separator) map to 2, not 1. -/
theorem file_key_counterexample :
    ("dup.txt".data).getLast? = some 't' ∧
      (count_tracked_files ["dup.txt".data, "dup.txt".data]).map
        (fun m => m "dup.txt".data) = some (some 2) := by
  exact ⟨by decide, by decide⟩

/-- Claim C3 amended: for every tracked-path sequence in which no
slash-free path occurs more than once, every key present in the resulting
map that does not end with `/` maps to exactly 1. -/
theorem file_key_count_one (l : List Str) (m : CountMap) (k : Str) (n : Nat)
    (hnodup : ∀ p ∈ l, '/' ∉ p → l.count p ≤ 1)
    (hm : count_tracked_files l = some m)
    (hk : m k = some n)
    (hslash : k.getLast? ≠ some '/') :
    n = 1 := by
  have hm2 : m = toMap (fun j => (l.map keyOf).count j) := by
    have h := count_tracked_files_eq l
    rw [hm] at h
    exact Option.some.inj h
  subst hm2
  have hcnt : (l.map keyOf).count k = n ∧ (l.map keyOf).count k ≠ 0 := by
    by_cases h0 : (l.map keyOf).count k = 0
    · rw [show toMap (fun j => (l.map keyOf).count j) k =
          optCount ((l.map keyOf).count k) from rfl, h0] at hk
      simp [optCount] at hk
    · rw [show toMap (fun j => (l.map keyOf).count j) k =
          optCount ((l.map keyOf).count k) from rfl] at hk
      rw [optCount, if_neg h0] at hk
      exact ⟨Option.some.inj hk, h0⟩
  have hpos : 0 < (l.map keyOf).count k := Nat.pos_of_ne_zero hcnt.2
  rw [count_map_keyOf] at hpos hcnt
  obtain ⟨p, hpl, hpk⟩ := List.countP_pos_iff.mp hpos
  rw [decide_eq_true_eq] at hpk
  obtain ⟨hpk2, hps⟩ := (keyOf_eq_file_iff p k hslash).mp hpk
  subst hpk2
  have hle : l.countP (fun q => decide (keyOf q = p)) ≤ l.count p := by
    rw [List.count_eq_countP]
    apply List.countP_mono_left
    intro x _ hx
    rw [decide_eq_true_eq] at hx
    rw [beq_iff_eq]
    exact ((keyOf_eq_file_iff x p hslash).mp hx).1
  have hge := hnodup p hpl hps
  omega

/-- Witness for the amended C3 at tracked paths `["a.txt", "b/x.txt"]` and
the plain key `a.txt`. -/
theorem file_key_count_one_witness :
    (∀ p ∈ (["a.txt".data, "b/x.txt".data] : List Str),
        '/' ∉ p → (["a.txt".data, "b/x.txt".data] : List Str).count p ≤ 1) ∧
      count_tracked_files ["a.txt".data, "b/x.txt".data] =
        some (incrementTracked (incrementTracked emptyMap "a.txt".data)
          "b/".data) ∧
      incrementTracked (incrementTracked emptyMap "a.txt".data) "b/".data
        "a.txt".data = some 1 ∧
      ("a.txt".data).getLast? ≠ some '/' ∧ (1 : Nat) = 1 := by
  refine ⟨by decide, rfl, by decide, by decide, ?_⟩
  exact file_key_count_one ["a.txt".data, "b/x.txt".data]
    (incrementTracked (incrementTracked emptyMap "a.txt".data) "b/".data)
    "a.txt".data 1 (by decide) rfl (by decide) (by decide)

/-- Claim C5: `count_tracked_files` is order-independent (and, being a pure
function of its input, deterministic): permuted inputs yield the identical
map. -/
theorem count_tracked_files_perm_invariant (l l2 : List Str)
    (h : l.Perm l2) :
    count_tracked_files l = count_tracked_files l2 := by
  rw [count_tracked_files_eq, count_tracked_files_eq]
  congr 1
  apply congrArg
  funext k
  rw [List.count_eq_countP, List.count_eq_countP]
  exact (h.map keyOf).countP_eq _

/-- Witness for C5: swapping the two tracked paths leaves the map
unchanged. -/
theorem count_tracked_files_perm_invariant_witness :
    (["a.txt".data, "b/x.txt".data] : List Str).Perm
        ["b/x.txt".data, "a.txt".data] ∧
      count_tracked_files ["a.txt".data, "b/x.txt".data] =
        count_tracked_files ["b/x.txt".data, "a.txt".data] := by
  have hp : (["a.txt".data, "b/x.txt".data] : List Str).Perm
      ["b/x.txt".data, "a.txt".data] :=
    List.Perm.swap "b/x.txt".data "a.txt".data []
  exact ⟨hp, count_tracked_files_perm_invariant _ _ hp⟩

/-- Claim C7 as stated is false: fed the empty-string path,
`count_tracked_files` does not fail fast; it returns normally and the key
`""` has been incremented to 1. -/
theorem empty_path_counterexample :
    (count_tracked_files [([] : Str)]).map (fun m => m []) =
      some (some 1) := by
  decide

/-- Claim C7 amended: an empty-string path does not make the aggregator
fail (its `/`-split still has one piece, the empty one); it is silently
counted as a bare file name under the empty-string key, which reads back
as the number of empty-string inputs. -/
theorem empty_path_counted (l : List Str) (m : CountMap)
    (hm : count_tracked_files l = some m) :
    m [] = optCount (l.count ([] : Str)) ∧
      (count_tracked_files l).isSome = true := by
  have hm2 : m = toMap (fun j => (l.map keyOf).count j) := by
    have h := count_tracked_files_eq l
    rw [hm] at h
    exact Option.some.inj h
  subst hm2
  refine ⟨?_, by rw [count_tracked_files_eq]; rfl⟩
  show optCount _ = optCount _
  congr 1
  show (l.map keyOf).count ([] : Str) = _
  rw [count_map_keyOf, List.count_eq_countP]
  apply List.countP_congr
  intro p _
  rw [decide_eq_true_eq, beq_iff_eq]
  have hf := keyOf_eq_file_iff p ([] : Str) (by decide)
  constructor
  · intro h
    exact (hf.mp h).1
  · intro h
    subst h
    exact hf.mpr ⟨rfl, List.not_mem_nil '/'⟩

/-- Witness for the amended C7 at the single empty path. -/
theorem empty_path_counted_witness :
    count_tracked_files [([] : Str)] =
        some (incrementTracked emptyMap []) ∧
      incrementTracked emptyMap [] [] =
        optCount ((([] : Str) :: []).count ([] : Str)) ∧
      (count_tracked_files [([] : Str)]).isSome = true := by
  have h := empty_path_counted [([] : Str)] (incrementTracked emptyMap []) rfl
  exact ⟨rfl, by rw [h.1], h.2⟩

/-- Claim C9: the aggregator is total: splitting any string on `/` yields
at least one piece, so the `unreachable!` arm in `count_tracked_files` is
dead and a map is returned for every input sequence, empty strings and
leading or trailing separators included. -/
theorem count_tracked_files_total (l : List Str) (s : Str) :
    0 < (splitSep '/' s).length ∧
      (count_tracked_files l).isSome = true :=
  ⟨List.length_pos.mpr (splitSep_ne_nil '/' s),
   by rw [count_tracked_files_eq]; rfl⟩

/-- Claim C2: whenever every entry falls in one of the four cases the claim
describes (directory entry, or file entry that is absent or has count 1),
the reporter completes and emits exactly one line per entry, in listing
order: `name - N` for a directory entry with count `N`, `name - None` for a
directory entry absent from the map, `name - CHECKED` for a file entry with
count 1, and `name - LEFT` for a file entry absent from the map. -/
theorem report_tracking_status_spec (entries : List Str) (tracked : CountMap)
    (h : ∀ e ∈ entries,
      endsWithSlash e = true ∨ tracked e = none ∨ tracked e = some 1) :
    report_tracking_status entries tracked =
      (entries.map (fun e =>
        if endsWithSlash e then
          match tracked e with
          | some n => report_dir_with_tracked_files e n
          | none => report_dir_without_tracked_files e
        else
          match tracked e with
          | some _ => report_tracked_file e
          | none => report_untracked_file e), true) := by
  induction entries with
  | nil => rfl
  | cons a rest ih =>
    have ha := h a (List.mem_cons_self a rest)
    have hrest := ih (fun e he => h e (List.mem_cons_of_mem a he))
    by_cases hsl : endsWithSlash a
    · cases hta : tracked a with
      | none =>
        simp only [report_tracking_status, hsl, if_true, hta, hrest,
          List.map_cons]
      | some c =>
        simp only [report_tracking_status, hsl, if_true, hta, hrest,
          List.map_cons]
    · cases hta : tracked a with
      | none =>
        simp only [report_tracking_status, hsl, Bool.false_eq_true, if_false,
          hta, hrest, List.map_cons]
      | some c =>
        have hc : c = 1 := by
          rcases ha with ha | ha | ha
          · exact absurd ha hsl
          · rw [ha] at hta; exact absurd hta (by simp)
          · rw [ha] at hta; exact (Option.some.inj hta).symm
        simp only [report_tracking_status, hsl, Bool.false_eq_true, if_false,
          hta, if_pos hc, hrest, List.map_cons]

/-- Witness for C2 at entries `["a.txt", "b/", "c/"]` against the map
`{a.txt ↦ 1, b/ ↦ 2}`. -/
theorem report_tracking_status_spec_witness :
    (∀ e ∈ (["a.txt".data, "b/".data, "c/".data] : List Str),
        endsWithSlash e = true ∨
          (fun k => if k = "a.txt".data then some 1
            else if k = "b/".data then some 2 else none) e = none ∨
          (fun k => if k = "a.txt".data then some 1
            else if k = "b/".data then some 2 else none) e = some 1) ∧
      report_tracking_status ["a.txt".data, "b/".data, "c/".data]
          (fun k => if k = "a.txt".data then some 1
            else if k = "b/".data then some 2 else none) =
        (["a.txt - CHECKED".data, "b/ - 2".data, "c/ - None".data], true) := by
  have h1 : ∀ e ∈ (["a.txt".data, "b/".data, "c/".data] : List Str),
      endsWithSlash e = true ∨
        (fun k => if k = "a.txt".data then some 1
          else if k = "b/".data then some 2 else none) e = none ∨
        (fun k => if k = "a.txt".data then some 1
          else if k = "b/".data then some 2 else none) e = some 1 := by
    decide
  refine ⟨h1, ?_⟩
  rw [report_tracking_status_spec _ _ h1]
  decide

/-- Claim C4: if the tracked paths contain the bare name `dup.txt` at least
twice and the listing contains the file entry `dup.txt`, the reporter hits
the internal-consistency `unreachable!` (completed-flag `false`) instead of
finishing the report. -/
theorem dup_file_fault (l es : List Str) (m : CountMap)
    (hdup : 2 ≤ l.count "dup.txt".data)
    (hent : "dup.txt".data ∈ es)
    (hm : count_tracked_files l = some m) :
    (report_tracking_status es m).2 = false := by
  have hm2 : m = toMap (fun j => (l.map keyOf).count j) := by
    have h := count_tracked_files_eq l
    rw [hm] at h
    exact Option.some.inj h
  subst hm2
  have hge : l.count "dup.txt".data ≤ (l.map keyOf).count "dup.txt".data := by
    show _ ≤ (l.map keyOf).count "dup.txt".data
    rw [count_map_keyOf, List.count_eq_countP]
    apply List.countP_mono_left
    intro x _ hx
    rw [beq_iff_eq] at hx
    subst hx
    decide
  apply report_aborts _ _ "dup.txt".data hent (by decide)
  have hne0 : (l.map keyOf).count "dup.txt".data ≠ 0 := by omega
  refine ⟨(l.map keyOf).count "dup.txt".data, ?_, ?_⟩
  · show optCount ((l.map keyOf).count "dup.txt".data) = _
    rw [optCount, if_neg hne0]
  · omega

/-- Witness for C4: tracked paths `["dup.txt", "dup.txt"]`, listing
`["dup.txt"]`. -/
theorem dup_file_fault_witness :
    2 ≤ (["dup.txt".data, "dup.txt".data] : List Str).count "dup.txt".data ∧
      "dup.txt".data ∈ (["dup.txt".data] : List Str) ∧
      count_tracked_files ["dup.txt".data, "dup.txt".data] =
        some (incrementTracked (incrementTracked emptyMap "dup.txt".data)
          "dup.txt".data) ∧
      (report_tracking_status ["dup.txt".data]
        (incrementTracked (incrementTracked emptyMap "dup.txt".data)
          "dup.txt".data)).2 = false := by
  refine ⟨by decide, by decide, rfl, ?_⟩
  exact dup_file_fault ["dup.txt".data, "dup.txt".data] ["dup.txt".data]
    (incrementTracked (incrementTracked emptyMap "dup.txt".data)
      "dup.txt".data) (by decide) (by decide) rfl

/-- Claim C6: the three end-to-end scenarios of aggregator followed by
reporter: `["a.txt"]` tracked against entries `["a.txt", "b/"]`,
`["b/x.txt", "b/y.txt"]` tracked against entries `["b/"]`, and nothing
tracked against entries `["c.txt"]`. -/
theorem end_to_end_scenarios :
    count_tracked_files ["a.txt".data] =
        some (fun k => if k = "a.txt".data then some 1 else none) ∧
      report_tracking_status ["a.txt".data, "b/".data]
          (fun k => if k = "a.txt".data then some 1 else none) =
        (["a.txt - CHECKED".data, "b/ - None".data], true) ∧
      count_tracked_files ["b/x.txt".data, "b/y.txt".data] =
        some (fun k => if k = "b/".data then some 2 else none) ∧
      report_tracking_status ["b/".data]
          (fun k => if k = "b/".data then some 2 else none) =
        (["b/ - 2".data], true) ∧
      count_tracked_files [] = some emptyMap ∧
      report_tracking_status ["c.txt".data] emptyMap =
        (["c.txt - LEFT".data], true) := by
  refine ⟨rfl, by decide, ?_, by decide, rfl, by decide⟩
  · have h2 : count_tracked_files ["b/x.txt".data, "b/y.txt".data] =
        some (incrementTracked (incrementTracked emptyMap "b/".data)
          "b/".data) := rfl
    rw [h2]
    congr 1
    funext k
    by_cases hk : k = "b/".data
    · subst hk
      simp [incrementTracked, emptyMap]
    · simp [incrementTracked, emptyMap, hk]

/-- Claim C8 names the intended behavior; the code diverges: a listing
process that finishes with a non-zero exit status is not surfaced as a
failure — its (possibly empty) captured stdout is decoded and returned as a
successful listing, for the tracked-path lister and the directory lister
alike.  Only a spawn failure or invalid UTF-8 output is surfaced. -/
theorem exit_status_ignored :
    get_tracked_file_names (SpawnResult.ok 128 (some [])) = Except.ok [] ∧
      get_file_names (SpawnResult.ok 2 (some [])) = Except.ok [] ∧
      get_tracked_file_names SpawnResult.ioError =
        Except.error "Failed to use git ls-tree to list tracked files".data ∧
      get_file_names SpawnResult.ioError =
        Except.error "Failed to get ls output".data :=
  ⟨rfl, rfl, rfl, rfl⟩

/-- Claim C10: every key present in the aggregate map either ends in `/`
with no other `/` occurrence (a directory key, produced only by paths
containing `/`) or contains no `/` at all (a file key, equal to a tracked
path containing no `/`, and produced only by such paths). -/
theorem key_shape_invariant (l : List Str) (m : CountMap) (k : Str) (n : Nat)
    (hm : count_tracked_files l = some m) (hk : m k = some n) :
    (k.getLast? = some '/' ∧ '/' ∉ k.dropLast ∧
        (∃ p ∈ l, keyOf p = k ∧ '/' ∈ p) ∧
        (∀ p : Str, keyOf p = k → '/' ∈ p)) ∨
      ('/' ∉ k ∧ k ∈ l ∧ ∀ p : Str, keyOf p = k → p = k) := by
  have hm2 : m = toMap (fun j => (l.map keyOf).count j) := by
    have h := count_tracked_files_eq l
    rw [hm] at h
    exact Option.some.inj h
  subst hm2
  have hpos : 0 < (l.map keyOf).count k := by
    by_cases h0 : (l.map keyOf).count k = 0
    · rw [show toMap (fun j => (l.map keyOf).count j) k =
          optCount ((l.map keyOf).count k) from rfl, h0] at hk
      simp [optCount] at hk
    · exact Nat.pos_of_ne_zero h0
  rw [count_map_keyOf] at hpos
  obtain ⟨p, hpl, hpk⟩ := List.countP_pos_iff.mp hpos
  rw [decide_eq_true_eq] at hpk
  by_cases hp : '/' ∈ p
  · left
    have hkey : k = firstComp p ++ ['/'] := by
      rw [← hpk, keyOf_of_mem p hp]
    refine ⟨?_, ?_, ⟨p, hpl, hpk, hp⟩, ?_⟩
    · rw [hkey]
      exact List.getLast?_concat _
    · rw [hkey, List.dropLast_concat]
      exact not_mem_firstComp p
    · intro q hq
      by_cases hq2 : '/' ∈ q
      · exact hq2
      · rw [keyOf_of_not_mem q hq2] at hq
        rw [hq, hkey] at hq2
        exact absurd (List.mem_append_right _ (List.mem_singleton.mpr rfl)) hq2
  · have hkey : k = p := by rw [← hpk, keyOf_of_not_mem p hp]
    subst hkey
    right
    refine ⟨hp, hpl, ?_⟩
    intro q hq
    by_cases hq2 : '/' ∈ q
    · rw [keyOf_of_mem q hq2] at hq
      exact absurd (hq ▸ List.mem_append_right _ (List.mem_singleton.mpr rfl))
        hp
    · rw [keyOf_of_not_mem q hq2] at hq
      exact hq

/-- Witness for C10 at tracked paths `["b/x.txt"]` and the key `b/`. -/
theorem key_shape_invariant_witness :
    count_tracked_files ["b/x.txt".data] =
        some (incrementTracked emptyMap "b/".data) ∧
      incrementTracked emptyMap "b/".data "b/".data = some 1 ∧
      ("b/".data).getLast? = some '/' := by
  refine ⟨rfl, by decide, ?_⟩
  have h := key_shape_invariant ["b/x.txt".data]
    (incrementTracked emptyMap "b/".data) "b/".data 1 rfl (by decide)
  rcases h with h | h
  · exact h.1
  · exact absurd (by decide : '/' ∈ "b/".data) h.1
